import Mathlib

/-!
# Clauduck — verification of the concurrency and resilience control layer

Shallow embedding, in Lean 4, of the core components of the Clauduck GitHub
bot (TypeScript):

* `AsyncKeyedLock` (`src/utils/async-lock.ts`) — per-key FIFO mutual
  exclusion, built out of a per-key chain of promises;
* `GitHubRateLimiter` (`src/github/rate-limiter.ts`) — adaptive throttling
  and retry of GitHub API calls;
* `SessionStore` (`src/agent/session-store.ts`) — hybrid in-memory/on-disk
  session persistence with base64-encoded filenames and TTL expiry;
* the webhook job queue of `src/server.ts` — deduplicated asynchronous
  dispatch of webhook deliveries;
* the session handling of `executeSessionQuery` (`src/agent/client.ts`).

Pure functions of the source are translated into Lean functions; stateful
methods become explicit state-passing functions; time (`Date.now()`,
`setTimeout`) is an explicit parameter; fallible operations return
`Option`/`Except`.  JavaScript numbers holding millisecond timestamps or
counters are modelled as `Nat`/`Int`, and durations that can pick up
fractional jitter as `Rat`.
-/

namespace Clauduck

/-! ## AsyncKeyedLock (src/utils/async-lock.ts)

```ts
async acquire(key: string): Promise<() => void> {
  const previous = this.tails.get(key) ?? Promise.resolve();
  let releaseFn!: () => void;
  const current = new Promise<void>((resolve) => { releaseFn = resolve; });
  const tail = previous.then(() => current);
  this.tails.set(key, tail);
  await previous;
  let released = false;
  return () => {
    if (released) return;
    released = true;
    releaseFn();
    if (this.tails.get(key) === tail) { this.tails.delete(key); }
  };
}
```

The `tails` map is keyed by the lock key, so the promise chain built for a
key depends only on the `acquire` calls for that same key; calls on other
keys read and write disjoint map entries.  We therefore model the chain of
one fixed key, with the `acquire` calls on that key numbered `0, 1, 2, …`
in program order (each call synchronously installs its `tail` before
suspending at `await previous`, so this numbering is well defined even for
concurrent callers).

The model is denotational, assigning to every promise of the chain the
time at which it resolves:

* `Promise.resolve()` (the chain seed) is resolved from the start, time `0`;
* `current i` is resolved exactly when caller `i` first invokes the
  release function returned to it, at time `releaseT i`;
* `previous.then(() => current)` resolves once `previous` has resolved and
  then `current` has resolved, i.e. at the maximum of the two times;
* `acquire` number `i` returns (the lock is granted) when its `previous`
  promise — the tail installed by call `i-1` — resolves.
-/

/-- Resolution time of the `previous` promise awaited by the `i`-th
`acquire` call on a key, given the times `releaseT j` at which each earlier
caller `j` invokes its release function.  `previous` of call `0` is
`Promise.resolve()` (already resolved); `previous` of call `i+1` is the
`tail` installed by call `i`, namely `previousᵢ.then(() => currentᵢ)`. -/
def prevResolveTime (releaseT : ℕ → ℕ) : ℕ → ℕ
  | 0 => 0
  | i + 1 => max (prevResolveTime releaseT i) (releaseT i)

/-- The `i`-th `acquire` call on a key returns (the lock is granted to
caller `i`) when its `previous` promise resolves. -/
def grantTime (releaseT : ℕ → ℕ) (i : ℕ) : ℕ :=
  prevResolveTime releaseT i

theorem prevResolveTime_mono (releaseT : ℕ → ℕ) :
    Monotone (prevResolveTime releaseT) := by
  apply monotone_nat_of_le_succ
  intro i
  exact le_max_left _ _

theorem releaseT_le_grantTime (releaseT : ℕ → ℕ) {j i : ℕ} (h : j < i) :
    releaseT j ≤ grantTime releaseT i := by
  induction i with
  | zero => omega
  | succ n ih =>
    rcases Nat.lt_succ_iff_lt_or_eq.mp h with h' | h'
    · exact le_trans (ih h') (le_trans (le_max_left _ _) le_rfl)
    · subst h'
      exact le_max_right _ _

/-- **C1**.  For every key, among concurrent callers of
`AsyncKeyedLock.acquire` on that key, the lock is granted in request order
(grant times are monotone in the request index), and the `i`-th caller's
`acquire` returns no earlier than the moment every earlier caller — in
particular caller `i-1` — has invoked its release function. -/
theorem acquire_fifo_and_waits_for_release (releaseT : ℕ → ℕ) (i j : ℕ)
    (hji : j < i) :
    (∀ a b : ℕ, a ≤ b → grantTime releaseT a ≤ grantTime releaseT b) ∧
      releaseT j ≤ grantTime releaseT i := by
  refine ⟨fun a b hab => prevResolveTime_mono releaseT hab, ?_⟩
  exact releaseT_le_grantTime releaseT hji

/-- Witness for C1 at a concrete instance: three queued callers releasing
at times 5, 11 and 2; the third grant waits for the second caller's
release (time 11) and grants are monotone. -/
theorem acquire_fifo_and_waits_for_release_witness :
    (∀ a b : ℕ, a ≤ b →
        grantTime (fun n => [5, 11, 2].getD n 0) a ≤
          grantTime (fun n => [5, 11, 2].getD n 0) b) ∧
      (fun n => [5, 11, 2].getD n 0) 1 ≤
        grantTime (fun n => [5, 11, 2].getD n 0) 2 :=
  acquire_fifo_and_waits_for_release (fun n => [5, 11, 2].getD n 0) 2 1
    (by decide)

/-! ## The release closure and executeSessionQuery's lock discipline
(src/agent/client.ts, lines 933–1038)

`executeSessionQuery` does:

```ts
const releaseLock = await sessionLock.acquire(sessionKey);
try {
  // create or resume session, send prompt, iterate session.stream():
  //  - message.type === "result" && subtype === "success" → return success
  //  - message.type === "result" otherwise               → return error result
  //  - stream ends                                       → return accumulated text
} catch (error) {
  return { success: false, result: "", error: message };
} finally {
  releaseLock();
}
```

The release function returned by `acquire` guards itself with a `released`
flag and invokes the underlying promise resolver (`releaseFn`) at most
once.  We model the closure's captured state and count resolver calls.
The body of `executeSessionQuery` is abstracted by the outcome of the
agent stream; the `try/catch` converts a thrown error into an error
response, so every outcome produces a normal return, and the `finally`
clause invokes the release function exactly once on the way out. -/

/-- Captured state of the release closure returned by
`AsyncKeyedLock.acquire`: the `released` flag and the number of times the
underlying resolver (`releaseFn`) has run. -/
structure ReleaseClosure where
  released : Bool
  resolveCalls : ℕ
  deriving DecidableEq, Repr

/-- One invocation of the release function: a no-op if already released,
otherwise sets the flag and runs the resolver. -/
def callRelease (r : ReleaseClosure) : ReleaseClosure :=
  if r.released then r else { released := true, resolveCalls := r.resolveCalls + 1 }

/-- The ways the agent-streaming body of `executeSessionQuery` can end. -/
inductive AgentStreamOutcome
  | resultSuccess (r : String)
  | resultError (subtype : String)
  | streamEnd (lastAssistantText : String)
  | thrown (msg : String)

/-- Agent response record (src/utils/types.ts `AgentResponse`). -/
structure AgentResponse where
  success : Bool
  result : String
  error : Option String
  deriving DecidableEq, Repr

/-- The value `executeSessionQuery` returns for each outcome of the body:
the `catch` turns a thrown error into an error response, `result` messages
return directly, and a stream that ends without a `result` message returns
the accumulated assistant text (`message.subtype || "Session error"`
falls back on the empty string because `""` is falsy in JS). -/
def sessionQueryResponse : AgentStreamOutcome → AgentResponse
  | .resultSuccess r => ⟨true, r, none⟩
  | .resultError subtype =>
      ⟨false, "", some (if subtype = "" then "Session error" else subtype)⟩
  | .streamEnd acc => ⟨true, acc, none⟩
  | .thrown msg => ⟨false, "", some msg⟩

/-- `executeSessionQuery` after the lock has been acquired: the body runs
to one of its outcomes (throwing included, absorbed by the `catch`), and
the `finally` clause invokes the release closure exactly once before the
response is returned. -/
def executeSessionQueryLock (outcome : AgentStreamOutcome)
    (releaseLock : ReleaseClosure) : AgentResponse × ReleaseClosure :=
  (sessionQueryResponse outcome, callRelease releaseLock)

/-- **C9**.  Every invocation of `executeSessionQuery` releases the
per-conversation-key lock exactly once before returning — on the success
path, the error-result path and the thrown-error path alike: starting from
a freshly acquired (unreleased) closure, the resolver has run exactly once
afterwards, and a further (double) release is a no-op.  A failed agent
call therefore never leaves the key locked. -/
theorem executeSessionQuery_releases_once (outcome : AgentStreamOutcome)
    (lock : ReleaseClosure) (h : lock.released = false) :
    (executeSessionQueryLock outcome lock).2.resolveCalls = lock.resolveCalls + 1 ∧
      (executeSessionQueryLock outcome lock).2.released = true ∧
      callRelease (executeSessionQueryLock outcome lock).2 =
        (executeSessionQueryLock outcome lock).2 := by
  simp only [executeSessionQueryLock, callRelease, h]
  simp

/-- Witness for C9: a thrown agent error on a fresh lock closure still
resolves the lock exactly once. -/
theorem executeSessionQuery_releases_once_witness :
    (executeSessionQueryLock (.thrown "boom") ⟨false, 0⟩).2.resolveCalls = 0 + 1 ∧
      (executeSessionQueryLock (.thrown "boom") ⟨false, 0⟩).2.released = true ∧
      callRelease (executeSessionQueryLock (.thrown "boom") ⟨false, 0⟩).2 =
        (executeSessionQueryLock (.thrown "boom") ⟨false, 0⟩).2 :=
  executeSessionQuery_releases_once (.thrown "boom") ⟨false, 0⟩ rfl

/-! ## Decimal rendering of timestamps

`src/server.ts` synthesizes delivery ids with a template literal,
`` `unknown-${Date.now()}` ``; the interpolation renders the millisecond
timestamp in decimal.  We model that rendering and prove it injective via
an explicit decoder. -/

/-- Decimal rendering of a natural number (JS number-to-string for the
integers produced by `Date.now()`). -/
def natDecimal (n : ℕ) : List Char :=
  if n = 0 then ['0'] else ((Nat.digits 10 n).map Nat.digitChar).reverse

/-- Decoder for `natDecimal`: read the characters back as base-10 digits. -/
def decodeDecimal (l : List Char) : ℕ :=
  Nat.ofDigits 10 (l.reverse.map (fun c => c.toNat - 48))

theorem digitChar_decode : ∀ x < 10, (Nat.digitChar x).toNat - 48 = x := by
  decide

theorem decode_natDecimal (n : ℕ) : decodeDecimal (natDecimal n) = n := by
  rcases eq_or_ne n 0 with h | h
  · subst h; decide
  · have hmap : List.map ((fun c : Char => c.toNat - 48) ∘ Nat.digitChar)
        (Nat.digits 10 n) = List.map (fun x => x) (Nat.digits 10 n) :=
      List.map_congr_left fun x hx =>
        digitChar_decode x (Nat.digits_lt_base (by norm_num) hx)
    simp only [natDecimal, if_neg h, decodeDecimal, List.reverse_reverse,
      List.map_map, hmap, List.map_id']
    exact Nat.ofDigits_digits 10 n

theorem natDecimal_injective : Function.Injective natDecimal :=
  Function.LeftInverse.injective decode_natDecimal

/-! ## Webhook job queue (src/server.ts)

```ts
const jobQueue: Map<string, WebhookJob> = new Map();
const processingJobs: Set<string> = new Set();
const DEDUP_WINDOW_MS = 5000;

function enqueueJob(event, payload, deliveryId) {
  const now = Date.now();
  const jobId = `${deliveryId}`;
  if (processingJobs.has(jobId)) { return; }
  const existingJob = jobQueue.get(jobId);
  if (existingJob && (now - existingJob.createdAt) < DEDUP_WINDOW_MS) { return; }
  const job = { id: jobId, event, payload, createdAt: now };
  jobQueue.set(jobId, job);
  processingJobs.add(jobId);
  processWebhookJob(job).catch(console.error);
}

async function processWebhookJob(job) {
  try { ...dispatch by event kind... }
  catch (error) { ...log... }
  finally {
    processingJobs.delete(job.id);
    jobQueue.delete(job.id);
  }
}
```

`Map` is modelled as an association list where an insert shadows earlier
entries (lookup finds the most recent), `Set` as a list queried through
`contains`.  `enqueueJob` additionally reports whether a new job was
queued (processing started), which in the source corresponds to reaching
the `jobQueue.set` line rather than returning early. -/

/-- A queued webhook job (src/server.ts `WebhookJob`), with the payload
type left abstract. -/
structure WebhookJob (π : Type) where
  id : String
  event : String
  payload : π
  createdAt : ℕ

/-- The two module-level collections of src/server.ts. -/
structure JobQueueState (π : Type) where
  jobQueue : List (String × WebhookJob π)
  processingJobs : List String

/-- Deduplication window: 5 seconds. -/
def DEDUP_WINDOW_MS : ℕ := 5000

/-- `jobQueue.get(jobId)`. -/
def lookupJob {π : Type} (q : List (String × WebhookJob π)) (id : String) :
    Option (WebhookJob π) :=
  (q.find? (fun p => p.1 == id)).map (·.2)

/-- The guard `existingJob && (now - existingJob.createdAt) < DEDUP_WINDOW_MS`
(a missing entry is falsy). -/
def recentDuplicate {π : Type} (q : List (String × WebhookJob π)) (id : String)
    (now : ℕ) : Bool :=
  match lookupJob q id with
  | some existingJob => decide (now - existingJob.createdAt < DEDUP_WINDOW_MS)
  | none => false

/-- `enqueueJob(event, payload, deliveryId)` at time `now`; returns the
new state and whether a job was queued and handed to the async worker. -/
def enqueueJob {π : Type} (st : JobQueueState π) (now : ℕ) (event : String)
    (payload : π) (deliveryId : String) : JobQueueState π × Bool :=
  if st.processingJobs.contains deliveryId then (st, false)
  else if recentDuplicate st.jobQueue deliveryId now then (st, false)
  else
    ({ jobQueue := (deliveryId, ⟨deliveryId, event, payload, now⟩) :: st.jobQueue,
       processingJobs := deliveryId :: st.processingJobs }, true)

/-- The `finally` clause of `processWebhookJob`: once processing finishes
(successfully or not), the job is removed from both collections. -/
def finishJob {π : Type} (st : JobQueueState π) (jobId : String) :
    JobQueueState π :=
  { jobQueue := st.jobQueue.filter (fun p => !(p.1 == jobId)),
    processingJobs := st.processingJobs.filter (fun x => !(x == jobId)) }

/-- The webhook route's delivery-id extraction
(`src/server.ts`, `app.post("/webhook")`):
`deliveryId || ` `` `unknown-${Date.now()}` `` — the header value when
present and non-empty (the empty string is falsy in JS), otherwise a
synthesized id from the current millisecond timestamp. -/
def deliveryIdStr (header : Option String) (now : ℕ) : String :=
  match header with
  | some s => if s = "" then "unknown-" ++ ⟨natDecimal now⟩ else s
  | none => "unknown-" ++ ⟨natDecimal now⟩

/-- States reachable by the server's job-queue operations from startup. -/
inductive JobQueueReachable {π : Type} : JobQueueState π → Prop
  | start : JobQueueReachable ⟨[], []⟩
  | enqueue {st : JobQueueState π} (now : ℕ) (event : String) (payload : π)
      (deliveryId : String) (h : JobQueueReachable st) :
      JobQueueReachable (enqueueJob st now event payload deliveryId).1
  | finish {st : JobQueueState π} (jobId : String) (h : JobQueueReachable st) :
      JobQueueReachable (finishJob st jobId)

theorem jobQueue_processing_agree {π : Type} {st : JobQueueState π}
    (h : JobQueueReachable st) :
    ∀ id : String, (∃ j, (id, j) ∈ st.jobQueue) ↔ id ∈ st.processingJobs := by
  induction h with
  | start => intro id; simp
  | @enqueue st now event payload deliveryId _ ih =>
      intro id
      have hI := ih id
      have hadd : (∃ j, (id, j) ∈
          (deliveryId, (⟨deliveryId, event, payload, now⟩ : WebhookJob π)) ::
            st.jobQueue) ↔ id ∈ deliveryId :: st.processingJobs := by
        simp only [List.mem_cons, Prod.mk.injEq]
        constructor
        · rintro ⟨j, ⟨h1, _⟩ | hj⟩
          · exact Or.inl h1
          · exact Or.inr (hI.mp ⟨j, hj⟩)
        · rintro (h' | h')
          · exact ⟨⟨deliveryId, event, payload, now⟩, Or.inl ⟨h', rfl⟩⟩
          · obtain ⟨j, hj⟩ := hI.mpr h'
            exact ⟨j, Or.inr hj⟩
      unfold enqueueJob
      split
      · simpa using hI
      · split
        · simpa using hI
        · simpa using hadd
  | @finish st jobId _ ih =>
      intro id
      have hI := ih id
      by_cases hid : id = jobId
      · subst hid
        simp [finishJob, List.mem_filter]
      · constructor
        · rintro ⟨j, hj⟩
          have hj' := List.mem_filter.mp hj
          have : id ∈ st.processingJobs := hI.mp ⟨j, hj'.1⟩
          exact List.mem_filter.mpr ⟨this, by simp [hid]⟩
        · intro hmem
          obtain ⟨j, hj⟩ := hI.mpr (List.mem_filter.mp hmem).1
          exact ⟨j, List.mem_filter.mpr ⟨hj, by simp [hid]⟩⟩

/-- In every reachable state the recent-duplicate branch of `enqueueJob`
is dead code: whenever the `processingJobs.has` guard has failed, the
`jobQueue.get` lookup is empty, so the `DEDUP_WINDOW_MS` comparison never
executes.  Completion removes a job from both collections at once, which
is what makes the 5-second dedup window ineffective. -/
theorem dedup_window_branch_unreachable {π : Type} {st : JobQueueState π}
    (h : JobQueueReachable st) (id : String)
    (hp : st.processingJobs.contains id = false) :
    lookupJob st.jobQueue id = none := by
  rcases hfind : st.jobQueue.find? (fun p => p.1 == id) with _ | p
  · simp [lookupJob, hfind]
  · exfalso
    have hpid : p.1 = id := by simpa using List.find?_some hfind
    have hmem : p ∈ st.jobQueue := List.mem_of_find?_eq_some hfind
    have hin : id ∈ st.processingJobs :=
      (jobQueue_processing_agree h id).mp ⟨p.2, by rw [← hpid]; exact hmem⟩
    simp at hp
    exact hp hin

/-- **C5** (code bug).  A delivery processed to completion is *not*
deduplicated inside the 5-second window: delivery `"d1"` is enqueued at
t = 0 and starts processing, finishes (the `finally` clause removes it
from both collections), and a redelivery at t = 1100 — well inside
`DEDUP_WINDOW_MS` — is accepted and starts processing again, contradicting
the documented dedup window. -/
theorem completed_delivery_reprocessed_within_window :
    (enqueueJob
      (finishJob
        (enqueueJob (⟨[], []⟩ : JobQueueState Unit) 0 "issue_comment" () "d1").1
        "d1")
      1100 "issue_comment" () "d1").2 = true := by
  decide

/-- **C10**.  A webhook request with no `x-github-delivery` header gets the
synthesized id `unknown-<now>`; two header-less events in the same
millisecond get the same id, so with the first still queued the second is
dropped, while header-less events from distinct milliseconds always get
distinct ids — and in particular a fresh one is accepted. -/
theorem headerless_delivery_dedup {π : Type} (st : JobQueueState π)
    (t1 t2 : ℕ) (e : String) (p : π)
    (h1 : deliveryIdStr none t1 ∉ st.processingJobs)
    (h1q : lookupJob st.jobQueue (deliveryIdStr none t1) = none) :
    (deliveryIdStr none t1 = "unknown-" ++ ⟨natDecimal t1⟩) ∧
      ((enqueueJob st t1 e p (deliveryIdStr none t1)).2 = true ∧
        (enqueueJob (enqueueJob st t1 e p (deliveryIdStr none t1)).1
            t1 e p (deliveryIdStr none t1)).2 = false) ∧
      (t1 ≠ t2 → deliveryIdStr none t1 ≠ deliveryIdStr none t2) := by
  have hrd : recentDuplicate st.jobQueue (deliveryIdStr none t1) t1 = false := by
    simp [recentDuplicate, h1q]
  refine ⟨rfl, ⟨?_, ?_⟩, ?_⟩
  · simp [enqueueJob, h1, hrd]
  · simp [enqueueJob, h1, hrd]
  · intro hne heq
    apply hne
    apply natDecimal_injective
    have : ("unknown-".data ++ natDecimal t1 : List Char) =
        "unknown-".data ++ natDecimal t2 := by
      simpa [deliveryIdStr, String.ext_iff] using heq
    exact List.append_cancel_left this

/-- Witness for C10 at a concrete instance: empty queue, two header-less
events at t = 7 and one at t = 8. -/
theorem headerless_delivery_dedup_witness :
    (deliveryIdStr none 7 = "unknown-" ++ ⟨natDecimal 7⟩) ∧
      ((enqueueJob (⟨[], []⟩ : JobQueueState Unit) 7 "issues" ()
          (deliveryIdStr none 7)).2 = true ∧
        (enqueueJob (enqueueJob (⟨[], []⟩ : JobQueueState Unit) 7 "issues" ()
            (deliveryIdStr none 7)).1 7 "issues" ()
            (deliveryIdStr none 7)).2 = false) ∧
      ((7 : ℕ) ≠ 8 → deliveryIdStr none 7 ≠ deliveryIdStr none 8) :=
  headerless_delivery_dedup (⟨[], []⟩ : JobQueueState Unit) 7 8 "issues" ()
    (List.not_mem_nil _) rfl

/-! ## GitHubRateLimiter (src/github/rate-limiter.ts)

State and methods of the limiter, with time explicit: `Date.now()` becomes
a `now` parameter and `this.sleep(ms)` becomes a reported sleep duration
(the caller's clock advances by the slept amount).  `Math.random()` is an
oracle parameter `rand : ℕ → ℚ` indexed by the invocation at which it is
drawn.  Delays are rationals because the 10% jitter of
`calculateRetryDelay` introduces fractional values. -/

/-- Parsed view of the rate-limit response headers
(src/utils/types.ts `GitHubApiHeaders`): a field is `some v` when the
header is present with a truthy (non-empty) string parsing to `v`. -/
structure GitHubApiHeaders where
  xRatelimitRemaining : Option Int
  xRatelimitReset : Option Int
  retryAfter : Option Int
  deriving DecidableEq, Repr

/-- `RateLimitState` of src/github/rate-limiter.ts. -/
structure RateLimitState where
  remaining : Int
  resetAt : Int
  lastRequest : ℚ
  deriving DecidableEq, Repr

/-- The limiter object: its `state` plus the mutable `minDelay` field
(`max`, the 60 s delay cap, is a constant and never mutated). -/
structure GitHubRateLimiter where
  state : RateLimitState
  minDelay : ℚ
  deriving DecidableEq, Repr

/-- Initial field values: `remaining: 5000, resetAt: 0, lastRequest: 0`
and `minDelay = 100`. -/
def defaultLimiter : GitHubRateLimiter := ⟨⟨5000, 0, 0⟩, 100⟩

/-- `this.max`: maximum retry delay (60 seconds). -/
def RL_MAX_DELAY : ℚ := 60000

/-- `GitHubApiError` of src/github/rate-limiter.ts: `status?`, `message`
(the empty string models a missing message) and the optional `headers`
object carrying `retry-after`. -/
structure GitHubApiError where
  status : Option ℕ
  message : String
  headers : Option GitHubApiHeaders
  deriving DecidableEq, Repr

/-- `updateFromHeaders(headers)`: overwrite `remaining` and `resetAt` from
the headers that are present, and stamp `lastRequest` with the current
time. -/
def updateFromHeaders (h : GitHubApiHeaders) (now : ℚ) (st : RateLimitState) :
    RateLimitState :=
  { remaining := h.xRatelimitRemaining.getD st.remaining,
    resetAt := h.xRatelimitReset.getD st.resetAt,
    lastRequest := now }

/-- `waitIfNeeded()`: returns the limiter afterwards and the total slept
time.  `now` is captured once on entry (as in the source, where the
min-delay comparison reuses the stale `now` after the reset sleep). -/
def waitIfNeeded (L : GitHubRateLimiter) (now : ℚ) : GitHubRateLimiter × ℚ :=
  let p :=
    if 0 < L.state.resetAt then
      let resetIn : ℚ := (L.state.resetAt : ℚ) * 1000 - now
      if 0 < resetIn then
        ({ L.state with resetAt := 0, remaining := 5000 }, resetIn + 1000)
      else (L.state, (0 : ℚ))
    else (L.state, (0 : ℚ))
  let timeSinceLastRequest := now - p.1.lastRequest
  let sleep2 :=
    if timeSinceLastRequest < L.minDelay then L.minDelay - timeSinceLastRequest
    else (0 : ℚ)
  ({ L with state := p.1 }, p.2 + sleep2)

/-- `calculateRetryDelay(attempt, baseDelay)`: exponential backoff with a
10% jitter drawn from `rand ∈ [0,1]`, capped at `this.max`. -/
def calculateRetryDelay (attempt : ℕ) (baseDelay : ℚ) (rand : ℚ) : ℚ :=
  let exponential := baseDelay * 2 ^ attempt
  let jitter := exponential * (1 / 10) * rand
  min (exponential + jitter) RL_MAX_DELAY

/-- One invocation of the wrapped API call: either a response with data
and headers, or a thrown `GitHubApiError`. -/
inductive CallResult (T : Type)
  | ok (data : T) (headers : GitHubApiHeaders)
  | fail (e : GitHubApiError)

/-- Substring test, modelling JS `String.prototype.includes`. -/
def listIncludes (pat : List Char) : List Char → Bool
  | [] => pat.isPrefixOf []
  | c :: rest => pat.isPrefixOf (c :: rest) || listIncludes pat rest

/-- `s.includes(pat)`. -/
def strIncludes (s pat : String) : Bool :=
  listIncludes pat.data s.data

/-- Result of `executeWithRetry`: the returned data or thrown error, the
number of invocations of the wrapped call, the total slept time and the
limiter state afterwards. -/
structure RetryRun (T : Type) where
  result : Except GitHubApiError T
  invocations : ℕ
  totalSleep : ℚ
  limiter : GitHubRateLimiter

/-- The `for (let attempt = 0; attempt <= maxRetries; attempt++)` loop of
`executeWithRetry`.  `fuel` is the number of remaining loop iterations
(`maxRetries + 1 - attempt`); when it reaches 0 the loop exits and the
last observed error is re-thrown.  Each iteration: `waitIfNeeded`, then
the call; on success, update state from the headers and, if `remaining`
dropped below 100, double `minDelay` (capped at 1000 ms); on failure,
classify: 403 or a "rate limit" message retries after `retry-after`
seconds or the exponential backoff, a "secondary rate limit" message or
429 retries after the 5000 ms-based backoff, anything else is re-thrown
immediately. -/
def executeWithRetryGo {T : Type} (call : ℕ → CallResult T) (rand : ℕ → ℚ) :
    ℕ → ℕ → GitHubRateLimiter → ℚ → ℕ → ℚ → Option GitHubApiError → RetryRun T
  | 0, _, L, _, inv, acc, lastError =>
      ⟨.error (lastError.getD ⟨none, "", none⟩), inv, acc, L⟩
  | fuel + 1, attempt, L, now, inv, acc, _ =>
      let w := waitIfNeeded L now
      let L1 := w.1
      let now1 := now + w.2
      match call inv with
      | .ok data headers =>
          let st2 := updateFromHeaders headers now1 L1.state
          let minDelay2 :=
            if st2.remaining < 100 then min (L1.minDelay * 2) 1000 else L1.minDelay
          ⟨.ok data, inv + 1, acc + w.2, ⟨st2, minDelay2⟩⟩
      | .fail e =>
          if e.status = some 403 ∨ strIncludes e.message "rate limit" = true then
            let retryAfter :=
              match e.headers.bind (fun h => h.retryAfter) with
              | some ra => (ra : ℚ) * 1000
              | none => calculateRetryDelay attempt 1000 (rand inv)
            executeWithRetryGo call rand fuel (attempt + 1) L1 (now1 + retryAfter)
              (inv + 1) (acc + w.2 + retryAfter) (some e)
          else if strIncludes e.message "secondary rate limit" = true ∨
              e.status = some 429 then
            let retryAfter := calculateRetryDelay attempt 5000 (rand inv)
            executeWithRetryGo call rand fuel (attempt + 1) L1 (now1 + retryAfter)
              (inv + 1) (acc + w.2 + retryAfter) (some e)
          else
            ⟨.error e, inv + 1, acc + w.2, L1⟩

/-- `executeWithRetry(apiCall, maxRetries)` starting from limiter `L` at
time `now` (the source's default for `maxRetries` is 3). -/
def executeWithRetry {T : Type} (call : ℕ → CallResult T) (rand : ℕ → ℚ)
    (maxRetries : ℕ) (L : GitHubRateLimiter) (now : ℚ) : RetryRun T :=
  executeWithRetryGo call rand (maxRetries + 1) 0 L now 0 0 none

/-- `reset()`: restore the default state and the base minimum delay. -/
def resetLimiter (_ : GitHubRateLimiter) : GitHubRateLimiter :=
  ⟨⟨5000, 0, 0⟩, 100⟩

/-- A call that always fails with HTTP 403 and an empty headers object —
no `retry-after`, no quota-reset information. -/
def bare403Call : ℕ → CallResult Unit :=
  fun _ => .fail ⟨some 403, "", some ⟨none, none, none⟩⟩

/-- **C2 counterexample**.  `executeWithRetry` over a call failing with
`{status: 403, headers: {}}` (no actionable rate-limit signal), at the
source's default `maxRetries = 3`: the call is invoked **4** times — the
403 branch always retries with exponential backoff — and only then is the
last error re-thrown; the claimed fail-fast (exactly 1 invocation, no
retry) does not hold. -/
theorem bare403_retried_not_failfast :
    (executeWithRetry bare403Call (fun _ => 0) 3 defaultLimiter 0).invocations = 4 ∧
      (executeWithRetry bare403Call (fun _ => 0) 3 defaultLimiter 0).invocations ≠ 1 ∧
      (executeWithRetry bare403Call (fun _ => 0) 3 defaultLimiter 0).result =
        .error ⟨some 403, "", some ⟨none, none, none⟩⟩ := by
  refine ⟨by decide, by decide, by rfl⟩

theorem executeWithRetryGo_all403 {T : Type} (errs : ℕ → GitHubApiError)
    (h403 : ∀ n, (errs n).status = some 403) (rand : ℕ → ℚ) :
    ∀ fuel attempt L now inv acc le, 1 ≤ fuel →
      ((executeWithRetryGo (T := T) (fun n => CallResult.fail (errs n)) rand
          fuel attempt L now inv acc le).invocations = inv + fuel ∧
        (executeWithRetryGo (T := T) (fun n => CallResult.fail (errs n)) rand
          fuel attempt L now inv acc le).result = .error (errs (inv + fuel - 1))) := by
  intro fuel
  induction fuel with
  | zero => intro attempt L now inv acc le h; omega
  | succ f ih =>
    intro attempt L now inv acc le _
    rcases Nat.eq_zero_or_pos f with hf | hf
    · subst hf
      simp only [executeWithRetryGo]
      rw [if_pos (Or.inl (h403 inv))]
      rcases hh : (errs inv).headers.bind (fun h => h.retryAfter) with _ | ra <;>
        simp [hh, executeWithRetryGo]
    · simp only [executeWithRetryGo]
      rw [if_pos (Or.inl (h403 inv))]
      have e1 : inv + 1 + f - 1 = inv + f := by omega
      have e2 : inv + (f + 1) - 1 = inv + f := by omega
      rcases hh : (errs inv).headers.bind (fun h => h.retryAfter) with _ | ra
      · simp only [hh]
        obtain ⟨H1, H2⟩ := ih (attempt + 1) (waitIfNeeded L now).1
          (now + (waitIfNeeded L now).2 + calculateRetryDelay attempt 1000 (rand inv))
          (inv + 1)
          (acc + (waitIfNeeded L now).2 + calculateRetryDelay attempt 1000 (rand inv))
          (some (errs inv)) hf
        exact ⟨by rw [H1]; omega, by rw [H2, e1, e2]⟩
      · simp only [hh]
        obtain ⟨H1, H2⟩ := ih (attempt + 1) (waitIfNeeded L now).1
          (now + (waitIfNeeded L now).2 + (ra : ℚ) * 1000)
          (inv + 1)
          (acc + (waitIfNeeded L now).2 + (ra : ℚ) * 1000)
          (some (errs inv)) hf
        exact ⟨by rw [H1]; omega, by rw [H2, e1, e2]⟩

/-- **C2 amended**.  Every 403 error is treated as a rate limit by
`executeWithRetry`: the wrapped call is retried (after the `retry-after`
delay when present, otherwise exponential backoff) until the attempt cap,
so a 403 with no actionable signal is invoked `maxRetries + 1` times and
the last observed error is then re-thrown — never a fail-fast after one
invocation. -/
theorem executeWithRetry_403_always_retries {T : Type}
    (errs : ℕ → GitHubApiError) (h403 : ∀ n, (errs n).status = some 403)
    (rand : ℕ → ℚ) (maxRetries : ℕ) (L : GitHubRateLimiter) (now : ℚ) :
    (executeWithRetry (T := T) (fun n => CallResult.fail (errs n)) rand
        maxRetries L now).invocations = maxRetries + 1 ∧
      (executeWithRetry (T := T) (fun n => CallResult.fail (errs n)) rand
        maxRetries L now).result = .error (errs maxRetries) := by
  have h := executeWithRetryGo_all403 (T := T) errs h403 rand (maxRetries + 1)
    0 L now 0 0 none (by omega)
  unfold executeWithRetry
  have e3 : 0 + (maxRetries + 1) - 1 = maxRetries := by omega
  refine ⟨by rw [h.1]; omega, by rw [h.2, e3]⟩

/-- Witness for the amended C2 theorem at the concrete bare-403 error and
`maxRetries = 3`. -/
theorem executeWithRetry_403_always_retries_witness :
    (executeWithRetry (T := Unit)
        (fun n => CallResult.fail ((fun _ => ⟨some 403, "", some ⟨none, none, none⟩⟩ :
          ℕ → GitHubApiError) n))
        (fun _ => 0) 3 defaultLimiter 0).invocations = 3 + 1 ∧
      (executeWithRetry (T := Unit)
        (fun n => CallResult.fail ((fun _ => ⟨some 403, "", some ⟨none, none, none⟩⟩ :
          ℕ → GitHubApiError) n))
        (fun _ => 0) 3 defaultLimiter 0).result =
        .error ((fun _ => ⟨some 403, "", some ⟨none, none, none⟩⟩ :
          ℕ → GitHubApiError) 3) :=
  executeWithRetry_403_always_retries
    (fun _ => ⟨some 403, "", some ⟨none, none, none⟩⟩) (fun _ => rfl)
    (fun _ => 0) 3 defaultLimiter 0

/-- **C3 counterexample**.  `waitIfNeeded` sleeps even though the
remaining-calls counter is nowhere near exhausted: with
`remaining = 5000`, `resetAt = 1` (second 1, i.e. 1000 ms in the future
of `now = 0`) and `minDelay = 100`, `waitIfNeeded` sleeps 2100 ms
(reset wait `1000 + 1000` plus the 100 ms minimum-delay enforcement) —
the code never consults `remaining` before sleeping. -/
theorem waitIfNeeded_sleeps_without_exhaustion :
    (⟨⟨5000, 1, 0⟩, 100⟩ : GitHubRateLimiter).state.remaining = 5000 ∧
      (waitIfNeeded ⟨⟨5000, 1, 0⟩, 100⟩ 0).2 = 2100 ∧
      (waitIfNeeded ⟨⟨5000, 1, 0⟩, 100⟩ 0).1.state.remaining = 5000 := by
  refine ⟨rfl, by norm_num [waitIfNeeded], by norm_num [waitIfNeeded]⟩

/-- **C3 amended**.  Whenever `resetAt` is set (`> 0`) and the reset time
is in the future — regardless of whether `remaining` is exhausted —
`waitIfNeeded` sleeps at least `resetAt·1000 − now + 1000` ms (until
1000 ms past the reset instant), then clears `resetAt` and optimistically
restores `remaining` to the default ceiling 5000.  (It can additionally
sleep to enforce the minimum inter-request delay.) -/
theorem waitIfNeeded_reset_window (L : GitHubRateLimiter) (now : ℚ)
    (hreset : 0 < L.state.resetAt)
    (hfuture : now < (L.state.resetAt : ℚ) * 1000) :
    (L.state.resetAt : ℚ) * 1000 - now + 1000 ≤ (waitIfNeeded L now).2 ∧
      (waitIfNeeded L now).1.state.remaining = 5000 ∧
      (waitIfNeeded L now).1.state.resetAt = 0 := by
  have hin : (0 : ℚ) < (L.state.resetAt : ℚ) * 1000 - now := by linarith
  unfold waitIfNeeded
  rw [if_pos hreset, if_pos hin]
  refine ⟨?_, rfl, rfl⟩
  dsimp only
  split
  · linarith
  · linarith

/-- Witness for the amended C3 theorem: the non-exhausted limiter of the
counterexample satisfies its hypotheses. -/
theorem waitIfNeeded_reset_window_witness :
    ((((⟨⟨5000, 1, 0⟩, 100⟩ : GitHubRateLimiter).state.resetAt : ℚ) * 1000 -
        0 + 1000 ≤ (waitIfNeeded ⟨⟨5000, 1, 0⟩, 100⟩ 0).2) ∧
      (waitIfNeeded ⟨⟨5000, 1, 0⟩, 100⟩ 0).1.state.remaining = 5000 ∧
      (waitIfNeeded ⟨⟨5000, 1, 0⟩, 100⟩ 0).1.state.resetAt = 0) :=
  waitIfNeeded_reset_window ⟨⟨5000, 1, 0⟩, 100⟩ 0 (by decide) (by norm_num)

/-- **C4 counterexample**.  Two refutations of the claimed low-water-mark
behaviour, at concrete inputs.  (a) A response with `remaining = 100`
(at the claimed mark) does *not* raise the delay: the comparison is
strict (`remaining < 100`).  (b) After a response with `remaining = 50`
raises `minDelay` to 200 ms, a later response showing `remaining = 5000`
(fully recovered) leaves `minDelay` at 200 ms — no code path restores the
base delay on recovery; only `reset()` does. -/
theorem lowWater_mark_and_recovery_refuted :
    (executeWithRetry (fun _ => CallResult.ok () ⟨some 100, none, none⟩)
        (fun _ => 0) 3 defaultLimiter 0).limiter.minDelay = 100 ∧
      (executeWithRetry (fun _ => CallResult.ok () ⟨some 50, none, none⟩)
        (fun _ => 0) 3 defaultLimiter 0).limiter.minDelay = 200 ∧
      (executeWithRetry (fun _ => CallResult.ok () ⟨some 5000, none, none⟩)
          (fun _ => 0) 3
          (executeWithRetry (fun _ => CallResult.ok () ⟨some 50, none, none⟩)
            (fun _ => 0) 3 defaultLimiter 0).limiter 1000).limiter.minDelay = 200 ∧
      (executeWithRetry (fun _ => CallResult.ok () ⟨some 5000, none, none⟩)
          (fun _ => 0) 3
          (executeWithRetry (fun _ => CallResult.ok () ⟨some 50, none, none⟩)
            (fun _ => 0) 3 defaultLimiter 0).limiter 1000).limiter.state.remaining
        = 5000 := by
  refine ⟨?_, ?_, ?_, ?_⟩ <;>
    norm_num [executeWithRetry, executeWithRetryGo, waitIfNeeded,
      updateFromHeaders, defaultLimiter]

/-- **C4 amended**.  On a successful call whose headers report
`remaining = r`, the limiter doubles `minDelay` (capped at 1000 ms) only
when `r` is *strictly* below 100, and leaves `minDelay` unchanged
whenever `r ≥ 100` — so a raised delay persists regardless of how far
`remaining` recovers; only an explicit `reset()` restores the base
100 ms. -/
theorem lowRemaining_delay_policy {T : Type} (data : T)
    (h : GitHubApiHeaders) (r : Int) (hr : h.xRatelimitRemaining = some r)
    (rand : ℕ → ℚ) (maxRetries : ℕ) (L L' : GitHubRateLimiter) (now : ℚ) :
    ((r < 100 →
        (executeWithRetry (fun _ => CallResult.ok data h) rand maxRetries L
          now).limiter.minDelay = min (L.minDelay * 2) 1000) ∧
      (100 ≤ r →
        (executeWithRetry (fun _ => CallResult.ok data h) rand maxRetries L
          now).limiter.minDelay = L.minDelay) ∧
      (resetLimiter L').minDelay = 100) := by
  have hmd : (waitIfNeeded L now).1.minDelay = L.minDelay := rfl
  unfold executeWithRetry
  simp only [executeWithRetryGo, updateFromHeaders, hr, Option.getD_some, hmd]
  refine ⟨fun hlt => ?_, fun hge => ?_, rfl⟩
  · rw [if_pos hlt]
  · rw [if_neg (by omega)]

/-- Witness for the amended C4 theorem at `remaining = 50` from the
default limiter: the delay doubles to 200 and `reset()` restores 100. -/
theorem lowRemaining_delay_policy_witness :
    (((50 : Int) < 100 →
        (executeWithRetry (fun _ => CallResult.ok () ⟨some 50, none, none⟩)
          (fun _ => 0) 3 defaultLimiter 0).limiter.minDelay =
          min (defaultLimiter.minDelay * 2) 1000) ∧
      ((100 : Int) ≤ 50 →
        (executeWithRetry (fun _ => CallResult.ok () ⟨some 50, none, none⟩)
          (fun _ => 0) 3 defaultLimiter 0).limiter.minDelay =
          defaultLimiter.minDelay) ∧
      (resetLimiter defaultLimiter).minDelay = 100) :=
  lowRemaining_delay_policy () ⟨some 50, none, none⟩ 50 rfl (fun _ => 0) 3
    defaultLimiter defaultLimiter 0

/-! ## Base64 filename encoding (src/agent/session-store.ts)

`getSessionFilePath(key)` names the session file
`Buffer.from(key).toString("base64") + ".json"`, and
`loadAllPersistedSessions` recovers the key with
`Buffer.from(file.replace(".json", ""), "base64").toString()`.  We model
keys by their UTF-8 byte sequences (`List ℕ`, every byte `< 256`) and
implement standard base64 (RFC 4648, with `=` padding) over them. -/

/-- The base64 alphabet: `A–Z`, `a–z`, `0–9`, `+`, `/`. -/
def b64Char (i : ℕ) : Char :=
  if i < 26 then Char.ofNat (65 + i)
  else if i < 52 then Char.ofNat (97 + (i - 26))
  else if i < 62 then Char.ofNat (48 + (i - 52))
  else if i = 62 then '+'
  else '/'

/-- Value of a base64 alphabet character. -/
def b64Val (c : Char) : ℕ :=
  if 65 ≤ c.toNat ∧ c.toNat ≤ 90 then c.toNat - 65
  else if 97 ≤ c.toNat ∧ c.toNat ≤ 122 then c.toNat - 97 + 26
  else if 48 ≤ c.toNat ∧ c.toNat ≤ 57 then c.toNat - 48 + 52
  else if c = '+' then 62
  else 63

theorem b64Val_b64Char : ∀ i < 64, b64Val (b64Char i) = i := by decide

theorem b64Char_ne_eq : ∀ i < 64, b64Char i ≠ '=' := by decide

theorem b64Char_ne_dot : ∀ i < 64, b64Char i ≠ '.' := by decide

/-- Base64 encoding of a byte sequence: 3 bytes become 4 characters, a
final 1- or 2-byte group is padded with `=`. -/
def b64Encode : List ℕ → List Char
  | [] => []
  | [a] => [b64Char (a / 4), b64Char (a % 4 * 16), '=', '=']
  | [a, b] => [b64Char (a / 4), b64Char (a % 4 * 16 + b / 16),
      b64Char (b % 16 * 4), '=']
  | a :: b :: c :: rest =>
      b64Char (a / 4) :: b64Char (a % 4 * 16 + b / 16) ::
        b64Char (b % 16 * 4 + c / 64) :: b64Char (c % 64) :: b64Encode rest

/-- Base64 decoding (well-formed input, as produced by `b64Encode`). -/
def b64Decode : List Char → List ℕ
  | c1 :: c2 :: c3 :: c4 :: rest =>
      if c3 = '=' then [b64Val c1 * 4 + b64Val c2 / 16]
      else if c4 = '=' then
        [b64Val c1 * 4 + b64Val c2 / 16, b64Val c2 % 16 * 16 + b64Val c3 / 4]
      else
        (b64Val c1 * 4 + b64Val c2 / 16) ::
          (b64Val c2 % 16 * 16 + b64Val c3 / 4) ::
          (b64Val c3 % 4 * 64 + b64Val c4) :: b64Decode rest
  | _ => []

/-- Decoding inverts encoding on byte sequences: the filename encoding of
a conversation key round-trips. -/
theorem b64_roundtrip : ∀ (l : List ℕ), (∀ b ∈ l, b < 256) →
    b64Decode (b64Encode l) = l
  | [], _ => rfl
  | [a], h => by
      have ha : a < 256 := h a (by simp)
      have h1 := b64Val_b64Char (a / 4) (by omega)
      have h2 := b64Val_b64Char (a % 4 * 16) (by omega)
      simp [b64Encode, b64Decode, h1, h2]
      omega
  | [a, b], h => by
      have ha : a < 256 := h a (by simp)
      have hb : b < 256 := h b (by simp)
      have h1 := b64Val_b64Char (a / 4) (by omega)
      have h2 := b64Val_b64Char (a % 4 * 16 + b / 16) (by omega)
      have h3 := b64Val_b64Char (b % 16 * 4) (by omega)
      have hne := b64Char_ne_eq (b % 16 * 4) (by omega)
      simp [b64Encode, b64Decode, if_neg hne, h1, h2, h3]
      constructor <;> omega
  | [a, b, c], h => by
      have ha : a < 256 := h a (by simp)
      have hb : b < 256 := h b (by simp)
      have hc : c < 256 := h c (by simp)
      have h1 := b64Val_b64Char (a / 4) (by omega)
      have h2 := b64Val_b64Char (a % 4 * 16 + b / 16) (by omega)
      have h3 := b64Val_b64Char (b % 16 * 4 + c / 64) (by omega)
      have h4 := b64Val_b64Char (c % 64) (by omega)
      have hne3 := b64Char_ne_eq (b % 16 * 4 + c / 64) (by omega)
      have hne4 := b64Char_ne_eq (c % 64) (by omega)
      simp [b64Encode, b64Decode, if_neg hne3, if_neg hne4, h1, h2, h3, h4]
      refine ⟨by omega, by omega, by omega⟩
  | a :: b :: c :: d :: rest, h => by
      have ha : a < 256 := h a (by simp)
      have hb : b < 256 := h b (by simp)
      have hc : c < 256 := h c (by simp)
      have h1 := b64Val_b64Char (a / 4) (by omega)
      have h2 := b64Val_b64Char (a % 4 * 16 + b / 16) (by omega)
      have h3 := b64Val_b64Char (b % 16 * 4 + c / 64) (by omega)
      have h4 := b64Val_b64Char (c % 64) (by omega)
      have hne3 := b64Char_ne_eq (b % 16 * 4 + c / 64) (by omega)
      have hne4 := b64Char_ne_eq (c % 64) (by omega)
      have ih := b64_roundtrip (d :: rest) (fun x hx => h x (by simp [hx]))
      simp [b64Encode, b64Decode, if_neg hne3, if_neg hne4, h1, h2, h3, h4, ih]
      refine ⟨by omega, by omega, by omega⟩

/-- No character of a base64 encoding is a dot (keys' encodings never
contain `.`; the `.json` suffix is therefore the first occurrence of the
pattern removed by `file.replace(".json", "")`). -/
theorem b64Encode_ne_dot : ∀ (l : List ℕ), (∀ b ∈ l, b < 256) →
    ∀ ch ∈ b64Encode l, ch ≠ '.'
  | [], _ => by simp [b64Encode]
  | [a], h => by
      have ha : a < 256 := h a (by simp)
      intro ch hch
      simp only [b64Encode, List.mem_cons, List.not_mem_nil, or_false] at hch
      rcases hch with rfl | rfl | rfl | rfl
      · exact b64Char_ne_dot (a / 4) (by omega)
      · exact b64Char_ne_dot (a % 4 * 16) (by omega)
      · decide
      · decide
  | [a, b], h => by
      have ha : a < 256 := h a (by simp)
      have hb : b < 256 := h b (by simp)
      intro ch hch
      simp only [b64Encode, List.mem_cons, List.not_mem_nil, or_false] at hch
      rcases hch with rfl | rfl | rfl | rfl
      · exact b64Char_ne_dot (a / 4) (by omega)
      · exact b64Char_ne_dot (a % 4 * 16 + b / 16) (by omega)
      · exact b64Char_ne_dot (b % 16 * 4) (by omega)
      · decide
  | [a, b, c], h => by
      have ha : a < 256 := h a (by simp)
      have hb : b < 256 := h b (by simp)
      have hc : c < 256 := h c (by simp)
      intro ch hch
      simp only [b64Encode, List.mem_cons, List.not_mem_nil, or_false] at hch
      rcases hch with rfl | rfl | rfl | rfl
      · exact b64Char_ne_dot (a / 4) (by omega)
      · exact b64Char_ne_dot (a % 4 * 16 + b / 16) (by omega)
      · exact b64Char_ne_dot (b % 16 * 4 + c / 64) (by omega)
      · exact b64Char_ne_dot (c % 64) (by omega)
  | a :: b :: c :: d :: rest, h => by
      have ha : a < 256 := h a (by simp)
      have hb : b < 256 := h b (by simp)
      have hc : c < 256 := h c (by simp)
      intro ch hch
      simp only [b64Encode, List.mem_cons] at hch
      rcases hch with rfl | rfl | rfl | rfl | hch
      · exact b64Char_ne_dot (a / 4) (by omega)
      · exact b64Char_ne_dot (a % 4 * 16 + b / 16) (by omega)
      · exact b64Char_ne_dot (b % 16 * 4 + c / 64) (by omega)
      · exact b64Char_ne_dot (c % 64) (by omega)
      · exact b64Encode_ne_dot (d :: rest) (fun x hx => h x (by simp [hx])) ch hch

/-- JS `String.prototype.replace` with a string pattern: replace the first
occurrence of `pat` by `repl` (the input is returned unchanged when the
pattern does not occur). -/
def replaceFirst (pat repl : List Char) : List Char → List Char
  | [] => if pat.isPrefixOf ([] : List Char) then repl else []
  | c :: rest =>
      if pat.isPrefixOf (c :: rest) then repl ++ (c :: rest).drop pat.length
      else c :: replaceFirst pat repl rest

/-- On a filename `s ++ ".json"` where `s` contains no dot,
`replace(".json", "")` strips exactly the suffix. -/
theorem replaceFirst_json_suffix (s : List Char) (h : ∀ ch ∈ s, ch ≠ '.') :
    replaceFirst ".json".data [] (s ++ ".json".data) = s := by
  induction s with
  | nil => decide
  | cons c s ih =>
    have hc : c ≠ '.' := h c (by simp)
    have hbeq : ('.' == c) = false := by
      simp only [beq_eq_false_iff_ne, ne_eq]
      exact fun hx => hc hx.symm
    have hpre : (".json".data.isPrefixOf (c :: (s ++ ".json".data))) = false := by
      show (('.' :: "json".data).isPrefixOf (c :: (s ++ ".json".data))) = false
      simp [List.isPrefixOf, hbeq]
    rw [List.cons_append, replaceFirst, hpre]
    simp only [Bool.false_eq_true, if_false, List.cons.injEq, true_and]
    exact ih (fun ch hch => h ch (by simp [hch]))

/-! ## SessionStore (src/agent/session-store.ts)

```ts
export interface SessionInfo {
  sessionId: string;
  context: GitHubContext;
  createdAt: number;
}
```

The store keeps an in-memory `Map<string, SessionInfo>` and one file per
key in a single directory.  We model conversation keys by their UTF-8
byte sequences, the map as an association list where an insert shadows
earlier entries, and the directory as an association list from filenames
(`List Char`) to file contents.  A file either parses as a session record
(`valid`) or fails to parse (`corrupt`); `persistSession`'s
temp-file/rename dance is collapsed to its net effect of atomically
(re)writing the destination file. -/

/-- `GitHubContext` (src/utils/types.ts). -/
structure GitHubContext where
  owner : String
  repo : String
  issueNumber : ℕ
  isPR : Bool
  commentId : Option ℕ
  triggeredAt : String
  deriving DecidableEq, Repr

/-- `SessionInfo` as declared by the session store (the interface has
exactly these three fields; no provider field). -/
structure SessionInfo where
  sessionId : String
  context : GitHubContext
  createdAt : ℕ
  deriving DecidableEq, Repr

/-- Contents of a file in the session directory: a serialized session
record, or bytes that `JSON.parse` rejects. -/
inductive FileContent
  | valid (s : SessionInfo)
  | corrupt
  deriving DecidableEq

/-- The session directory: filename ↦ contents. -/
abbrev Disk := List (List Char × FileContent)

/-- The in-memory `sessions` map (keys are conversation-key bytes);
lookup takes the most recent insert. -/
abbrev SessionMem := List (List ℕ × SessionInfo)

/-- `sessions.get(key)`. -/
def memLookup (mem : SessionMem) (key : List ℕ) : Option SessionInfo :=
  (mem.find? (fun p => p.1 == key)).map (·.2)

/-- `getSessionFilePath(key)` without the directory prefix:
`Buffer.from(key).toString("base64") + ".json"`. -/
def getSessionFilePath (key : List ℕ) : List Char :=
  b64Encode key ++ ".json".data

/-- Net effect of `persistSession`: write the serialized record over the
destination file (temp write + atomic rename). -/
def diskWrite (d : Disk) (name : List Char) (c : FileContent) : Disk :=
  (name, c) :: d.filter (fun p => !(p.1 == name))

/-- `saveSession(key, session)`: update the map, then persist. -/
def saveSession (mem : SessionMem) (key : List ℕ) (s : SessionInfo)
    (d : Disk) : SessionMem × Disk :=
  ((key, s) :: mem, diskWrite d (getSessionFilePath key) (.valid s))

/-- The filter `file.endsWith(".json") && !file.endsWith(".tmp")` applied
to each directory entry. -/
def isSessionFile (name : List Char) : Bool :=
  ".json".data.isSuffixOf name && !(".tmp".data.isSuffixOf name)

/-- Decoding a filename back to its key:
`Buffer.from(file.replace(".json", ""), "base64").toString()`. -/
def decodeName (name : List Char) : List ℕ :=
  b64Decode (replaceFirst ".json".data [] name)

/-- `loadAllPersistedSessions()`: walk the directory; for each `.json`
(non-`.tmp`) file, parse it — a record within the TTL is loaded into the
map under the decoded key, an expired record's file is deleted, and an
unparseable file is deleted (`try`/`catch`, logged, never thrown) — and
continue with the remaining files.  Returns the map and the directory
afterwards. -/
def loadAllPersistedSessions (ttl now : ℕ) :
    Disk → SessionMem → SessionMem × Disk
  | [], mem => (mem, [])
  | (name, content) :: rest, mem =>
      if isSessionFile name then
        match content with
        | .valid s =>
            if now - s.createdAt ≤ ttl then
              let r := loadAllPersistedSessions ttl now rest
                ((decodeName name, s) :: mem)
              (r.1, (name, content) :: r.2)
            else
              loadAllPersistedSessions ttl now rest mem
        | .corrupt => loadAllPersistedSessions ttl now rest mem
      else
        let r := loadAllPersistedSessions ttl now rest mem
        (r.1, (name, content) :: r.2)

theorem decodeName_getSessionFilePath (key : List ℕ)
    (hk : ∀ b ∈ key, b < 256) : decodeName (getSessionFilePath key) = key := by
  unfold decodeName getSessionFilePath
  rw [replaceFirst_json_suffix (b64Encode key) (b64Encode_ne_dot key hk)]
  exact b64_roundtrip key hk

theorem json_suffix_isSessionFile (l : List Char) :
    isSessionFile (l ++ ".json".data) = true := by
  unfold isSessionFile
  have h1 : ".json".data.isSuffixOf (l ++ ".json".data) = true :=
    List.isSuffixOf_iff_suffix.mpr (List.suffix_append l _)
  have h2 : ".tmp".data.isSuffixOf (l ++ ".json".data) = false := by
    rcases Bool.eq_false_or_eq_true (".tmp".data.isSuffixOf (l ++ ".json".data))
      with ht | hf
    · exfalso
      obtain ⟨t, hteq⟩ := List.isSuffixOf_iff_suffix.mp ht
      have h1' : (t ++ ".tmp".data).getLast? = some 'p' := by
        rw [List.getLast?_append]
        rfl
      rw [hteq, List.getLast?_append] at h1'
      have : (some 'n' : Option Char) = some 'p' := h1'
      exact absurd this (by decide)
    · exact hf
  rw [h1, h2]
  rfl

/-- **C6**.  A session saved under key `k` on one store instance is found
again, with the same `sessionId`, by a fresh store instance over the same
directory that runs `loadAllPersistedSessions` within the TTL window: the
base64 filename encoding of the key round-trips. -/
theorem session_store_roundtrip (key : List ℕ) (hk : ∀ b ∈ key, b < 256)
    (s : SessionInfo) (now ttl : ℕ) (hage : now - s.createdAt ≤ ttl) :
    memLookup
        (loadAllPersistedSessions ttl now (saveSession [] key s []).2 []).1
        key = some s ∧
      (memLookup
          (loadAllPersistedSessions ttl now (saveSession [] key s []).2 []).1
          key).map (·.sessionId) = some s.sessionId := by
  have hfile := json_suffix_isSessionFile (b64Encode key)
  have hdec := decodeName_getSessionFilePath key hk
  have hmem : memLookup
      (loadAllPersistedSessions ttl now (saveSession [] key s []).2 []).1
      key = some s := by
    show memLookup
      (loadAllPersistedSessions ttl now
        [(getSessionFilePath key, .valid s)] []).1 key = some s
    unfold loadAllPersistedSessions
    rw [show getSessionFilePath key = b64Encode key ++ ".json".data from rfl,
      hfile]
    simp only [if_pos hage]
    unfold loadAllPersistedSessions
    rw [show b64Encode key ++ ".json".data = getSessionFilePath key from rfl,
      hdec]
    simp [memLookup]
  exact ⟨hmem, by rw [hmem]; rfl⟩

/-- Witness for C6 at a concrete instance: the key bytes of
`"o/r#1"` (a conversation key with filesystem-unsafe characters), a
record created at t = 0, reloaded at t = 5 with TTL 10000. -/
theorem session_store_roundtrip_witness :
    memLookup
        (loadAllPersistedSessions 10000 5
          (saveSession [] [111, 47, 114, 35, 49]
            ⟨"s2", ⟨"o", "r", 1, false, none, ""⟩, 0⟩ []).2 []).1
        [111, 47, 114, 35, 49] =
        some ⟨"s2", ⟨"o", "r", 1, false, none, ""⟩, 0⟩ ∧
      (memLookup
          (loadAllPersistedSessions 10000 5
            (saveSession [] [111, 47, 114, 35, 49]
              ⟨"s2", ⟨"o", "r", 1, false, none, ""⟩, 0⟩ []).2 []).1
          [111, 47, 114, 35, 49]).map (·.sessionId) = some "s2" :=
  session_store_roundtrip [111, 47, 114, 35, 49] (by decide)
    ⟨"s2", ⟨"o", "r", 1, false, none, ""⟩, 0⟩ 5 10000 (by decide)

theorem loadAll_removes_corrupt (ttl now : ℕ) :
    ∀ (d : Disk) (mem0 : SessionMem) (name : List Char),
      isSessionFile name = true →
      (name, FileContent.corrupt) ∉ (loadAllPersistedSessions ttl now d mem0).2
  | [], _, _, _ => by simp [loadAllPersistedSessions]
  | (n, c) :: rest, mem0, name, hname => by
      unfold loadAllPersistedSessions
      rcases Bool.eq_false_or_eq_true (isSessionFile n) with hT | hF
      · rw [hT]
        match c with
        | .valid s =>
            by_cases hage : now - s.createdAt ≤ ttl
            · rw [if_pos rfl]
              dsimp only
              rw [if_pos hage]
              intro hmem
              rcases List.mem_cons.mp hmem with heq | htail
              · exact FileContent.noConfusion (congrArg Prod.snd heq)
              · exact loadAll_removes_corrupt ttl now rest
                  ((decodeName n, s) :: mem0) name hname htail
            · rw [if_pos rfl]
              dsimp only
              rw [if_neg hage]
              exact loadAll_removes_corrupt ttl now rest mem0 name hname
        | .corrupt =>
            rw [if_pos rfl]
            dsimp only
            exact loadAll_removes_corrupt ttl now rest mem0 name hname
      · rw [hF]
        rw [if_neg (by simp)]
        intro hmem
        rcases List.mem_cons.mp hmem with heq | htail
        · have hn : name = n := congrArg Prod.fst heq
          rw [← hn, hname] at hF
          simp at hF
        · exact loadAll_removes_corrupt ttl now rest mem0 name hname htail

theorem loadAll_mem_from_valid (ttl now : ℕ) :
    ∀ (d : Disk) (mem0 : SessionMem) (k : List ℕ) (v : SessionInfo),
      memLookup (loadAllPersistedSessions ttl now d mem0).1 k = some v →
      memLookup mem0 k = some v ∨ ∃ name, (name, FileContent.valid v) ∈ d
  | [], mem0, k, v => by
      intro h
      exact Or.inl (by simpa [loadAllPersistedSessions] using h)
  | (n, c) :: rest, mem0, k, v => by
      intro h
      unfold loadAllPersistedSessions at h
      rcases Bool.eq_false_or_eq_true (isSessionFile n) with hT | hF
      · rw [hT] at h
        match c, h with
        | .valid s, h =>
            by_cases hage : now - s.createdAt ≤ ttl
            · simp only [if_pos hage] at h
              rcases loadAll_mem_from_valid ttl now rest
                  ((decodeName n, s) :: mem0) k v h with hmem | ⟨name, hin⟩
              · by_cases hk : (decodeName n == k) = true
                · obtain rfl : s = v := by
                    simpa [memLookup, List.find?_cons, hk] using hmem
                  exact Or.inr ⟨n, List.mem_cons_self _ _⟩
                · exact Or.inl (by
                    simpa [memLookup, List.find?_cons, hk] using hmem)
              · exact Or.inr ⟨name, List.mem_cons_of_mem _ hin⟩
            · simp only [if_neg hage] at h
              rcases loadAll_mem_from_valid ttl now rest mem0 k v h
                with hmem | ⟨name, hin⟩
              · exact Or.inl hmem
              · exact Or.inr ⟨name, List.mem_cons_of_mem _ hin⟩
        | .corrupt, h =>
            rcases loadAll_mem_from_valid ttl now rest mem0 k v h
              with hmem | ⟨name, hin⟩
            · exact Or.inl hmem
            · exact Or.inr ⟨name, List.mem_cons_of_mem _ hin⟩
      · rw [hF] at h
        simp only [Bool.false_eq_true, if_false] at h
        rcases loadAll_mem_from_valid ttl now rest mem0 k v h
          with hmem | ⟨name, hin⟩
        · exact Or.inl hmem
        · exact Or.inr ⟨name, List.mem_cons_of_mem _ hin⟩

theorem loadAll_mem_mono (ttl now : ℕ) :
    ∀ (d : Disk) (mem0 : SessionMem) (k : List ℕ),
      (memLookup mem0 k).isSome = true →
      (memLookup (loadAllPersistedSessions ttl now d mem0).1 k).isSome = true
  | [], mem0, k => by
      intro h
      simpa [loadAllPersistedSessions] using h
  | (n, c) :: rest, mem0, k => by
      intro h
      unfold loadAllPersistedSessions
      rcases Bool.eq_false_or_eq_true (isSessionFile n) with hT | hF
      · rw [hT]
        match c with
        | .valid s =>
            rw [if_pos rfl]
            dsimp only
            by_cases hage : now - s.createdAt ≤ ttl
            · rw [if_pos hage]
              apply loadAll_mem_mono ttl now rest ((decodeName n, s) :: mem0) k
              by_cases hk : (decodeName n == k) = true
              · simp [memLookup, List.find?_cons, hk]
              · simpa [memLookup, List.find?_cons, hk] using h
            · rw [if_neg hage]
              exact loadAll_mem_mono ttl now rest mem0 k h
        | .corrupt =>
            rw [if_pos rfl]
            dsimp only
            exact loadAll_mem_mono ttl now rest mem0 k h
      · rw [hF, if_neg (by simp)]
        exact loadAll_mem_mono ttl now rest mem0 k h

theorem loadAll_loads_valid (ttl now : ℕ) :
    ∀ (d : Disk) (mem0 : SessionMem) (name : List Char) (s : SessionInfo),
      (name, FileContent.valid s) ∈ d →
      isSessionFile name = true →
      now - s.createdAt ≤ ttl →
      (memLookup (loadAllPersistedSessions ttl now d mem0).1
        (decodeName name)).isSome = true
  | [], _, _, _ => by
      intro h _ _
      exact absurd h (List.not_mem_nil _)
  | (n, c) :: rest, mem0, name, s => by
      intro hmem hname hage
      rcases List.mem_cons.mp hmem with heq | htail
      · injection heq with h1 h2
        subst h1
        subst h2
        unfold loadAllPersistedSessions
        rw [hname]
        rw [if_pos rfl]
        dsimp only
        rw [if_pos hage]
        dsimp only
        apply loadAll_mem_mono ttl now rest ((decodeName name, s) :: mem0)
        simp [memLookup, List.find?_cons]
      · unfold loadAllPersistedSessions
        rcases Bool.eq_false_or_eq_true (isSessionFile n) with hT | hF
        · rw [hT]
          match c with
          | .valid s' =>
              rw [if_pos rfl]
              dsimp only
              by_cases hage' : now - s'.createdAt ≤ ttl
              · rw [if_pos hage']
                exact loadAll_loads_valid ttl now rest
                  ((decodeName n, s') :: mem0) name s htail hname hage
              · rw [if_neg hage']
                exact loadAll_loads_valid ttl now rest mem0 name s htail
                  hname hage
          | .corrupt =>
              rw [if_pos rfl]
              dsimp only
              exact loadAll_loads_valid ttl now rest mem0 name s htail
                hname hage
        · rw [hF, if_neg (by simp)]
          exact loadAll_loads_valid ttl now rest mem0 name s htail hname hage

/-- **C7**.  `loadAllPersistedSessions` absorbs corruption and keeps
going: over any directory contents, (1) every unparseable `.json` file is
deleted, (2) no corrupted record is loaded — whatever the map holds
afterwards was either there before or parsed from some valid file — and
(3) every valid, non-expired `.json` file is still processed: its decoded
key is present in the map afterwards. -/
theorem loadAll_corruption_safe (ttl now : ℕ) (d : Disk) (mem0 : SessionMem) :
    (∀ name : List Char, isSessionFile name = true →
        (name, FileContent.corrupt) ∉
          (loadAllPersistedSessions ttl now d mem0).2) ∧
      (∀ (k : List ℕ) (v : SessionInfo),
        memLookup (loadAllPersistedSessions ttl now d mem0).1 k = some v →
        memLookup mem0 k = some v ∨ ∃ name, (name, FileContent.valid v) ∈ d) ∧
      (∀ (name : List Char) (s : SessionInfo),
        (name, FileContent.valid s) ∈ d → isSessionFile name = true →
        now - s.createdAt ≤ ttl →
        (memLookup (loadAllPersistedSessions ttl now d mem0).1
          (decodeName name)).isSome = true) :=
  ⟨fun name h => loadAll_removes_corrupt ttl now d mem0 name h,
   fun k v h => loadAll_mem_from_valid ttl now d mem0 k v h,
   fun name s h1 h2 h3 => loadAll_loads_valid ttl now d mem0 name s h1 h2 h3⟩

/-- Witness for C7 on a concrete directory holding one corrupted and one
valid session file: the corrupted file is gone after the load and the
valid one's key is loaded. -/
theorem loadAll_corruption_safe_witness :
    ((getSessionFilePath [97], FileContent.corrupt) ∉
        (loadAllPersistedSessions 1000 5
          [(getSessionFilePath [97], FileContent.corrupt),
            (getSessionFilePath [98],
              FileContent.valid ⟨"sv", ⟨"o", "r", 1, false, none, ""⟩, 0⟩)]
          []).2) ∧
      (memLookup
          (loadAllPersistedSessions 1000 5
            [(getSessionFilePath [97], FileContent.corrupt),
              (getSessionFilePath [98],
                FileContent.valid ⟨"sv", ⟨"o", "r", 1, false, none, ""⟩, 0⟩)]
            []).1
          (decodeName (getSessionFilePath [98]))).isSome = true :=
  have H := loadAll_corruption_safe 1000 5
    [(getSessionFilePath [97], FileContent.corrupt),
      (getSessionFilePath [98],
        FileContent.valid ⟨"sv", ⟨"o", "r", 1, false, none, ""⟩, 0⟩)] []
  ⟨H.1 (getSessionFilePath [97]) (json_suffix_isSessionFile (b64Encode [97])),
   H.2.2 (getSessionFilePath [98]) ⟨"sv", ⟨"o", "r", 1, false, none, ""⟩, 0⟩
     (List.mem_cons_of_mem _ (List.mem_cons_self _ _))
     (json_suffix_isSessionFile (b64Encode [98])) (by decide)⟩

/-! ## Session records and resume (src/agent/client.ts and
src/agent/providers/)

The save call site of `executeSessionQuery` (client.ts) builds
`{ sessionId, context, createdAt: Date.now() }` — no provider property —
while the provider adapters (providers/claude.ts, providers/codex.ts)
additionally attach `provider: "claude"` / `provider: "codex"`.  The
stored object is modelled with an optional `provider` field covering both
shapes.  On resume, `executeSessionQuery` does

```ts
const sessionInfo = sessionStore.getSession(sessionKey);
const session = sessionInfo
  ? unstable_v2_resumeSession(sessionInfo.sessionId, options)
  : unstable_v2_createSession(options);
```

— any stored record is used, with no inspection of a provider field. -/

/-- `AgentProvider` (src/utils/types.ts). -/
inductive AgentProvider
  | claude
  | codex
  deriving DecidableEq, Repr

/-- Shape of the records passed to `sessionStore.saveSession` across the
repository's save call sites; `provider` is `none` when the call site
attaches no provider property. -/
structure StoredSessionRecord where
  sessionId : String
  context : GitHubContext
  createdAt : ℕ
  provider : Option AgentProvider
  deriving DecidableEq, Repr

/-- The record built by `executeSessionQuery` (client.ts:
`{ sessionId, context, createdAt: Date.now() }`). -/
def clientSessionData (sessionId : String) (context : GitHubContext)
    (now : ℕ) : StoredSessionRecord :=
  ⟨sessionId, context, now, none⟩

/-- The record saved by the Claude adapter (providers/claude.ts). -/
def claudeSessionData (sessionId : String) (context : GitHubContext)
    (now : ℕ) : StoredSessionRecord :=
  ⟨sessionId, context, now, some .claude⟩

/-- The record saved by the Codex adapter (providers/codex.ts). -/
def codexSessionData (sessionId : String) (context : GitHubContext)
    (now : ℕ) : StoredSessionRecord :=
  ⟨sessionId, context, now, some .codex⟩

/-- How a session is started for a conversation key. -/
inductive SessionChoice
  | resume (sessionId : String)
  | create
  deriving DecidableEq, Repr

/-- The create-or-resume decision of `executeSessionQuery`: resume
whenever a stored record exists, otherwise create. -/
def sessionChoice (info : Option StoredSessionRecord) : SessionChoice :=
  match info with
  | some i => .resume i.sessionId
  | none => .create

/-- **C8 counterexample**.  A stored record whose provider (`codex`) does
not match the backend running `executeSessionQuery` (the Claude SDK) is
*not* invalidated — resume uses its `sessionId` regardless — and the
record saved by `executeSessionQuery` itself carries no provider field at
all. -/
theorem provider_mismatch_not_invalidated :
    sessionChoice
        (some ⟨"sid", ⟨"o", "r", 1, false, none, ""⟩, 0, some .codex⟩) =
      .resume "sid" ∧
      (clientSessionData "sid" ⟨"o", "r", 1, false, none, ""⟩ 0).provider =
        none :=
  ⟨rfl, rfl⟩

/-- **C8 amended**.  Only the provider-adapter save paths stamp records
with their provider (`claude`/`codex`); `executeSessionQuery`'s save path
stores no provider, and the resume decision uses any stored record's
`sessionId` without comparing providers, so a mismatched provider never
invalidates a record. -/
theorem provider_field_and_resume (r : StoredSessionRecord)
    (sessionId : String) (context : GitHubContext) (now : ℕ) :
    sessionChoice (some r) = .resume r.sessionId ∧
      sessionChoice none = .create ∧
      (clientSessionData sessionId context now).provider = none ∧
      (claudeSessionData sessionId context now).provider = some .claude ∧
      (codexSessionData sessionId context now).provider = some .codex :=
  ⟨rfl, rfl, rfl, rfl, rfl⟩

end Clauduck